import Mathlib

/-!
A verification development for `grobid_client.py`, a batch-oriented client
that walks an input directory for PDF files, partitions them into bounded
batches, submits each file to a remote GROBID service and writes the
returned TEI document next to the input (or into a configured output
directory).

Paths and other strings are embedded as `List Char`.  The Python standard
library functions the client relies on (`os.walk`, `os.path.join`,
`os.path.splitext`, `ntpath.basename`, `ntpath.dirname`) are embedded
following their documented CPython semantics on Linux (`os.sep = '/'`,
`os.path = posixpath`; `ntpath` treats both `'/'` and `'\\'` as
separators; drive-letter handling of `ntpath` is irrelevant for the POSIX
paths produced by `os.walk` and is omitted).
-/

namespace Grobid

/-- Characters that `ntpath` treats as path separators. -/
def isNtSep (c : Char) : Bool := c = '/' || c = '\\'

/-- `ntpath.basename p` (no drive letter): the part of `p` after the last
`'/'` or `'\\'`. -/
def ntBasename (p : List Char) : List Char :=
  (p.reverse.takeWhile (fun c => !isNtSep c)).reverse

/-- `ntpath.dirname p` (no drive letter): everything before the last
separator, with trailing separators stripped unless the head consists of
separators only. -/
def ntDirname (p : List Char) : List Char :=
  let head := (p.reverse.dropWhile (fun c => !isNtSep c)).reverse
  if head.all isNtSep then head
  else (head.reverse.dropWhile isNtSep).reverse

/-- Index of the last occurrence of `c` in `p`, if any. -/
def lastIndexOf (c : Char) (p : List Char) : Option Nat :=
  (p.reverse.findIdx? (fun d => d = c)).map (fun i => p.length - 1 - i)

/-- `os.path.splitext(p)[0]` (posixpath): split at the last dot, unless the
dot lies before the last `'/'` or the whole filename part before the dot
consists of dots (leading-dot files such as `".pdf"` keep their name). -/
def splitextStem (p : List Char) : List Char :=
  match lastIndexOf '.' p, lastIndexOf '/' p with
  | none, _ => p
  | some d, sep? =>
    let sepOk := match sep? with
      | none => true
      | some k => decide (k < d)
    let s := match sep? with
      | none => 0
      | some k => k + 1
    if sepOk then
      if ((p.drop s).take (d - s)).all (fun c => c = '.') then p
      else p.take d
    else p

/-- `os.path.join a b` (posixpath, two arguments). -/
def pyJoin (a b : List Char) : List Char :=
  if b.head? = some '/' then b
  else if a = [] ∨ a.getLast? = some '/' then a ++ b
  else a ++ '/' :: b

/-- The fixed structured-output suffix `'.tei.xml'`. -/
def teiExt : List Char := ".tei.xml".data

/-- The destination path computed at the top of `process_pdf`
(`grobid_client.py` lines 97–101): base name of the input with its
extension replaced by `.tei.xml`, placed in `output_directory` when one is
configured and next to the input otherwise. -/
def destPath (output_directory : Option (List Char)) (p : List Char) :
    List Char :=
  let pdf_file_name := ntBasename p
  match output_directory with
  | some d => pyJoin d (splitextStem pdf_file_name ++ teiExt)
  | none => pyJoin (ntDirname p) (splitextStem pdf_file_name ++ teiExt)

/-- Boolean suffix test, `str.endswith` on `List Char`. -/
def listEndsWith (l ext : List Char) : Bool :=
  decide (l.reverse.take ext.length = ext.reverse)

/-- The discovery filter of `process` (`grobid_client.py` line 78):
`filename.endswith('.pdf') or filename.endswith('.PDF')`. -/
def matchesPdf (name : List Char) : Bool :=
  listEndsWith name ".pdf".data || listEndsWith name ".PDF".data

/-- The mutable fields of `GrobidClient` that `process_pdf` reads or
writes, together with the configuration entries it consults
(`grobid_client.py` lines 29–48 and 69–71). -/
structure ClientSt where
  api_url : List Char
  service : List Char
  output_directory : Option (List Char)
  force : Bool
  sleep_time : Nat
  generate_ids : Bool
  consolidate_header : Bool
  consolidate_citations : Bool
  tei_coordinates : Bool
  coordinates : List Char
  deriving DecidableEq, Repr

/-- One HTTP response of the GROBID service: status code and body.  A run
of `process_pdf` is evaluated against a finite script of responses, one
consumed per POST. -/
structure Resp where
  status : Nat
  body : List Char
  deriving DecidableEq, Repr

/-- Observable effects of `process_pdf`, in order: a POST to the service
(recording target URL, input file path and form data), a sleep before a
503 retry, and a write of the response body to the destination file. -/
inductive Ev where
  | net (url : List Char) (file : List Char)
      (data : List (List Char × List Char))
  | sleep (t : Nat)
  | write (path : List Char) (body : List Char)
  deriving DecidableEq, Repr

/-- Terminal result of one `process_pdf` call. -/
inductive Outcome where
  | skipped
  | success
  | failed (code : Nat)
  deriving DecidableEq, Repr

/-- `_prepare_post_data` (`grobid_client.py` lines 132–143): the form
fields enabled by the option flags, as an ordered association list. -/
def prepare_post_data (st : ClientSt) : List (List Char × List Char) :=
  (if st.generate_ids then [("generate_ids".data, "1".data)] else []) ++
  (if st.consolidate_header then
    [("consolidate_header".data, "1".data)] else []) ++
  (if st.consolidate_citations then
    [("consolidate_citations".data, "1".data)] else []) ++
  (if st.tei_coordinates then
    [("tei_coordinates".data, st.coordinates)] else [])

/-- `process_pdf` (`grobid_client.py` lines 96–130), evaluated against the
set `fs` of files existing on disk and the response script `gw`.  Returns
the client state after the call, the list of effects, and the outcome
(`none` when the response script runs out mid-retry).  Matching the
source: the destination check happens before any POST; the call appends
`/api/{service}` to `self.api_url` before each POST (line 113); a 503
sleeps `sleep_time` and re-enters `process_pdf`; any other non-200 fails;
a 200 writes the body to the destination. -/
def process_pdf (st : ClientSt) (fs : List (List Char)) (gw : List Resp)
    (p : List Char) : ClientSt × List Ev × Option Outcome :=
  let filename := destPath st.output_directory p
  if st.force = false ∧ filename ∈ fs then (st, [], some .skipped)
  else
    let st1 := { st with api_url := st.api_url ++ "/api/".data ++ st.service }
    let data := prepare_post_data st1
    match gw with
    | [] => (st1, [], none)
    | r :: rest =>
      let ev := Ev.net st1.api_url p data
      if r.status = 503 then
        let res := process_pdf st1 fs rest p
        (res.1, ev :: Ev.sleep st.sleep_time :: res.2.1, res.2.2)
      else if r.status ≠ 200 then (st1, [ev], some (.failed r.status))
      else (st1, [ev, Ev.write filename r.body], some .success)

/-- The file system seen by `os.walk`: the list of directories in
traversal order, each with its directory path and its file names. -/
abbrev FS : Type := List (List Char × List (List Char))

/-- `os.walk root` over an `FS` table: if `root` is not a directory of the
table, `scandir` raises and `os.walk` (whose `onerror` is left at `None`)
swallows the error and yields nothing; otherwise it yields `root` and the
directories below it, in table order. -/
def osWalk (fs : FS) (root : List Char) : FS :=
  if fs.any (fun e => e.1 = root) then
    fs.filter (fun e => e.1 = root || decide ((root ++ ['/']) <+: e.1))
  else []

/-- The matched paths of `process` in traversal order
(`grobid_client.py` lines 76–79): for each walked directory, each file
name passing the `.pdf`/`.PDF` filter, joined as
`os.sep.join([directory_path, filename])`. -/
def matchedFiles (fs : FS) (root : List Char) : List (List Char) :=
  (osWalk fs root).flatMap
    (fun e => (e.2.filter matchesPdf).map (fun n => e.1 ++ '/' :: n))

/-- One step of the batching loop body (`grobid_client.py` lines 79–83):
append the path to the buffer; when the buffer reaches `batch_size`,
drain it as a batch and clear it. -/
def stepFile (B : Nat) (st : List (List (List Char)) × List (List Char))
    (f : List Char) : List (List (List Char)) × List (List Char) :=
  let acc := st.2 ++ [f]
  if acc.length = B then (st.1 ++ [acc], []) else (st.1, acc)

/-- The batching loop of `process` over an explicit list of matched
paths, with buffer `acc` (`grobid_client.py` lines 76–86): batches are
drained whenever the buffer reaches `B`, and a non-empty final buffer is
drained as a last batch. -/
def processLoop (B : Nat) : List (List Char) → List (List Char) →
    List (List (List Char))
  | [], acc => if 0 < acc.length then [acc] else []
  | f :: rest, acc =>
    let acc1 := acc ++ [f]
    if acc1.length = B then acc1 :: processLoop B rest []
    else processLoop B rest acc1

/-- `process` (`grobid_client.py` lines 69–86) as a batch scheduler: the
nested walk-and-filter iteration feeding the batching loop, followed by
the final drain of a non-empty buffer.  The result is the list of batches
handed to `process_batch`, in order. -/
def processRunBatches (fs : FS) (root : List Char) (B : Nat) :
    List (List (List Char)) :=
  let st := (osWalk fs root).foldl
    (fun st e => e.2.foldl
      (fun st2 name =>
        if matchesPdf name then stepFile B st2 (e.1 ++ '/' :: name)
        else st2) st)
    ([], [])
  if 0 < st.2.length then st.1 ++ [st.2] else st.1

/-- Exceptions relevant to the embedded fragment of the client. -/
inductive PyExn where
  | invalidRoot
  | nameError
  deriving DecidableEq, Repr

/-- `process` viewed with its exception behaviour: for a string `root`
the body raises nothing — `os.walk` yields nothing on a bad root instead
of raising — so every run returns its batches normally. -/
def processRun (fs : FS) (root : List Char) (B : Nat) :
    Except PyExn (List (List (List Char))) :=
  .ok (processRunBatches fs root B)

/-- Reference chunking: split a list into contiguous chunks of size `B`,
the last possibly shorter. -/
def chunksOf (B : Nat) (l : List (List Char)) : List (List (List Char)) :=
  if h : B = 0 ∨ l = [] then if l = [] then [] else [l]
  else l.take B :: chunksOf B (l.drop B)
termination_by l.length
decreasing_by
  simp only [not_or] at h
  have hB : 0 < B := Nat.pos_of_ne_zero h.1
  have hl : 0 < l.length := List.length_pos.mpr h.2
  simpa using Nat.sub_lt hl hB

/-- Target URLs of the POST events of an effect list, in order. -/
def netUrlsOf (evs : List Ev) : List (List Char) :=
  evs.filterMap (fun e => match e with
    | .net u _ _ => some u
    | _ => none)

/-- The file writes of an effect list, in order. -/
def writesOf (evs : List Ev) : List (List Char × List Char) :=
  evs.filterMap (fun e => match e with
    | .write p b => some (p, b)
    | _ => none)

/-- Scheduling events of a run: a file submitted to the worker pool, and
a file reaching a terminal state (success, skip, or permanent failure). -/
inductive BEv where
  | submitted (f : List Char)
  | finished (f : List Char)
  deriving DecidableEq, Repr

/-- The traces one `process_batch` call can produce for batch `b`
(`grobid_client.py` lines 88–94): every member of `b` is submitted and —
because leaving the `with concurrent.futures.ProcessPoolExecutor(...)`
block calls `shutdown(wait=True)` — also reaches its terminal state
before the call returns, each submission preceding its own completion;
workers may interleave arbitrarily otherwise. -/
def isBatchTrace (b : List (List Char)) (t : List BEv) : Prop :=
  (∀ f, BEv.submitted f ∈ t ↔ f ∈ b) ∧
  (∀ f, BEv.finished f ∈ t ↔ f ∈ b) ∧
  (∀ f ∈ b, ∃ t1 t2, t = t1 ++ t2 ∧
    BEv.submitted f ∈ t1 ∧ BEv.finished f ∈ t2)

/-- The traces a `process` run over the given batch list can produce:
`process` calls `process_batch` once per batch, in order, each call
returning before the next begins, so the run trace is the concatenation
of one complete batch trace per batch. -/
def isProcessTrace (batches : List (List (List Char))) (t : List BEv) :
    Prop :=
  ∃ ts, t = ts.flatten ∧ List.Forall₂ isBatchTrace batches ts

/-- The keyword arguments `GrobidClient.__init__` consults
(`grobid_client.py` lines 38–43); `none` means the argument was
omitted. -/
structure InitKwargs where
  number_of_processes : Option Nat := none
  generate_ids : Option Bool := none
  consolidate_header : Option Bool := none
  consolidate_citations : Option Bool := none
  force : Option Bool := none
  tei_coordinates : Option Bool := none
  deriving DecidableEq, Repr

/-- The option fields `__init__` stores on the client. -/
structure ClientOptions where
  number_of_processes : Nat
  generate_ids : Bool
  consolidate_header : Bool
  consolidate_citations : Bool
  force : Bool
  tei_coordinates : Bool
  deriving DecidableEq, Repr

/-- Option resolution of `__init__` (`grobid_client.py` lines 38–43):
`kwargs.get(key, default)` with default `True` for every flag, and the
configuration value for `number_of_processes`. -/
def init_options (kw : InitKwargs) (config_number_of_processes : Nat) :
    ClientOptions :=
  { number_of_processes :=
      kw.number_of_processes.getD config_number_of_processes
    generate_ids := kw.generate_ids.getD true
    consolidate_header := kw.consolidate_header.getD true
    consolidate_citations := kw.consolidate_citations.getD true
    force := kw.force.getD true
    tei_coordinates := kw.tei_coordinates.getD true }

/-- The boolean flags of the command line (`grobid_client.py` lines
166–170), each declared with `action='store_true'`. -/
structure CliFlags where
  generateIDs : Bool
  consolidate_header : Bool
  consolidate_citations : Bool
  force : Bool
  teiCoordinates : Bool
  deriving DecidableEq, Repr

/-- `argparse` with `action='store_true'`: a flag is `True` exactly when
present on the command line, `False` by default. -/
def cliParseFlags (argv : List (List Char)) : CliFlags :=
  { generateIDs := decide ("--generateIDs".data ∈ argv)
    consolidate_header := decide ("--consolidate_header".data ∈ argv)
    consolidate_citations := decide ("--consolidate_citations".data ∈ argv)
    force := decide ("--force".data ∈ argv)
    teiCoordinates := decide ("--teiCoordinates".data ∈ argv) }

/-- The `options` dictionary the `__main__` block passes to the client
(`grobid_client.py` lines 190–197). -/
def optionsFromCli (c : CliFlags) (n : Nat) : InitKwargs :=
  { number_of_processes := some n
    generate_ids := some c.generateIDs
    consolidate_header := some c.consolidate_header
    consolidate_citations := some c.consolidate_citations
    force := some c.force
    tei_coordinates := some c.teiCoordinates }

/-- The `max_workers` argument of the pool created by `process_batch`
(`grobid_client.py` line 92): the bare name `n`, which resolves to the
module-level global assigned only in the `__main__` block — not to
`self.number_of_processes`.  When the module is imported as a library the
global is unbound and the line raises `NameError`. -/
def process_batch_max_workers (moduleN : Option Nat) : Except PyExn Nat :=
  match moduleN with
  | some k => .ok k
  | none => .error .nameError

/-- The spec's discovery filter, following its words: a case-insensitive
match of the name's ending against `.pdf`.  Stated only for comparison
with the filter `matchesPdf` taken from the source. -/
def specMatchesPdfCI (name : List Char) : Bool :=
  listEndsWith (name.map Char.toLower) ".pdf".data

/-- The part of a path after its last `'/'` (the whole path when it has
none). -/
def afterLastSlash (l : List Char) : List Char :=
  (l.reverse.takeWhile (fun c => decide (c ≠ '/'))).reverse

/-- A concrete client state used by witnesses: API URL `http://h`,
service `svc`, no output directory, `force = false`. -/
def sampleSt : ClientSt :=
  { api_url := "http://h".data, service := "svc".data,
    output_directory := none, force := false, sleep_time := 1,
    generate_ids := true, consolidate_header := true,
    consolidate_citations := true, tei_coordinates := true,
    coordinates := "persName".data }

/-- `sampleSt` with `force = true`. -/
def sampleStF : ClientSt := { sampleSt with force := true }

/-- A concrete file-system table used by witnesses: a root directory
`in` holding three PDFs. -/
def sampleFS : FS :=
  [("in".data, ["a.pdf".data, "b.txt".data, "c.PDF".data, "d.pdf".data])]

/-- C4: when `force` is `false` and the destination file already exists,
`process_pdf` returns Skipped at once: no POST, no sleep, no write — the
effect list is empty — and the client state is untouched; the existence
check thus precedes any submission to the service. -/
theorem c4_skip_without_network (st : ClientSt) (fs : List (List Char))
    (gw : List Resp) (p : List Char) (hforce : st.force = false)
    (hex : destPath st.output_directory p ∈ fs) :
    process_pdf st fs gw p = (st, [], some Outcome.skipped) := by
  rw [process_pdf]
  rw [if_pos ⟨hforce, hex⟩]

/-- Witness for `c4_skip_without_network`: a concrete client with
`force = false`, a disk already holding `in/a.tei.xml`, and input
`in/a.pdf`. -/
theorem c4_skip_without_network_witness :
    process_pdf sampleSt ["in/a.tei.xml".data] [⟨200, "B".data⟩]
        "in/a.pdf".data = (sampleSt, [], some Outcome.skipped) :=
  c4_skip_without_network sampleSt ["in/a.tei.xml".data]
    [⟨200, "B".data⟩] "in/a.pdf".data rfl (by decide)

/-- C7 (bug evidence): `__init__` resolves `number_of_processes` from its
keyword arguments and the configuration (here to 5), but the pool built
by `process_batch` is sized by the bare module-level global `n`: a
`NameError` when the module is imported as a library, and the
command-line value (here 10) when run as a script.
`self.number_of_processes` never reaches `max_workers`. -/
theorem c7_max_workers_ignores_number_of_processes :
    (init_options { number_of_processes := some 5 } 3).number_of_processes
        = 5 ∧
    process_batch_max_workers none = Except.error PyExn.nameError ∧
    process_batch_max_workers (some 10) = Except.ok 10 :=
  ⟨rfl, rfl, rfl⟩

/-- C9 (counterexample): for a table containing only the directory
`data`, running `process` with root `missing` — which is not a directory
of the table — returns normally with zero batches; no `InvalidRoot`
error is raised or propagated. -/
theorem c9_invalid_root_counterexample :
    (([("data".data, ["a.pdf".data])] : FS).any
        (fun e => e.1 = "missing".data)) = false ∧
    processRun [("data".data, ["a.pdf".data])] "missing".data 2 =
      Except.ok [] :=
  ⟨by decide, rfl⟩

/-- C9 (amended): when the root is not a directory of the table,
`os.walk` — whose `onerror` argument is left at `None` — swallows the
scandir error and yields nothing, so `process` completes normally having
scheduled zero batches, instead of failing with an error. -/
theorem c9_invalid_root_yields_no_batches (fs : FS) (root : List Char)
    (B : Nat) (h : fs.any (fun e => e.1 = root) = false) :
    processRun fs root B = Except.ok [] := by
  simp [processRun, processRunBatches, osWalk, h]

/-- Witness for `c9_invalid_root_yields_no_batches` at a concrete table
and root. -/
theorem c9_invalid_root_yields_no_batches_witness :
    processRun sampleFS "missing".data 2 = Except.ok [] :=
  c9_invalid_root_yields_no_batches sampleFS "missing".data 2 (by decide)

/-- C10: with the option keyword arguments omitted, `__init__` defaults
`generate_ids`, `consolidate_header`, `consolidate_citations`, `force`
and `tei_coordinates` to `True`; the default `force = True` makes
`process_pdf` overwrite a pre-existing destination (success, one write)
rather than skip it; the command-line surface, whose `store_true` flags
are fed through the `options` dictionary, defaults all five to
`False`. -/
theorem c10_option_defaults :
    init_options {} 7 =
      { number_of_processes := 7, generate_ids := true,
        consolidate_header := true, consolidate_citations := true,
        force := true, tei_coordinates := true } ∧
    init_options (optionsFromCli (cliParseFlags
        ["processFulltextDocument".data, "--input".data, "in".data]) 10) 7 =
      { number_of_processes := 10, generate_ids := false,
        consolidate_header := false, consolidate_citations := false,
        force := false, tei_coordinates := false } ∧
    (process_pdf sampleStF ["in/a.tei.xml".data] [⟨200, "B".data⟩]
        "in/a.pdf".data).2.2 = some Outcome.success ∧
    writesOf (process_pdf sampleStF ["in/a.tei.xml".data]
        [⟨200, "B".data⟩] "in/a.pdf".data).2.1 =
      [("in/a.tei.xml".data, "B".data)] := by
  refine ⟨rfl, by decide, by decide, by decide⟩

/-- C5 (counterexample): a single successful `process_pdf` call changes
the client's `api_url` field — line 113 executes
`self.api_url = f"{self.api_url}/api/{self.service}"` — so `api_url`
does not have the same value after the call as before it. -/
theorem c5_api_url_mutated_counterexample :
    (process_pdf sampleStF [] [⟨200, "B".data⟩]
        "in/a.pdf".data).1.api_url ≠ sampleStF.api_url := by
  decide

/-- C5 (amended): `api_url` is not read-only shared state: every
submission attempt appends `/api/{service}` to it.  After any call that
is not skipped and whose first response is not a 503, the field equals
its previous value with `/api/{service}` appended once. -/
theorem c5_api_url_appended (st : ClientSt) (fs : List (List Char))
    (p : List Char) (r : Resp) (rest : List Resp)
    (hskip : ¬ (st.force = false ∧ destPath st.output_directory p ∈ fs))
    (h503 : r.status ≠ 503) :
    (process_pdf st fs (r :: rest) p).1.api_url =
      st.api_url ++ "/api/".data ++ st.service := by
  rw [process_pdf]
  rw [if_neg hskip]
  by_cases h200 : r.status = 200 <;> simp [h503, h200]

/-- Witness for `c5_api_url_appended`: a concrete non-skipped call whose
one response is a 404. -/
theorem c5_api_url_appended_witness :
    (process_pdf sampleStF [] [⟨404, []⟩] "in/a.pdf".data).1.api_url =
      sampleStF.api_url ++ "/api/".data ++ sampleStF.service :=
  c5_api_url_appended sampleStF [] "in/a.pdf".data ⟨404, []⟩ []
    (by decide) (by decide)

/-- C3 (counterexample): against a response script of 503, 503, 200 the
three submissions are not identical requests: already the first two POST
target URLs differ, because each attempt first appends `/api/{service}`
to the stored `api_url`. -/
theorem c3_urls_not_identical_counterexample :
    netUrlsOf (process_pdf sampleStF []
        [⟨503, []⟩, ⟨503, []⟩, ⟨200, "B".data⟩] "in/a.pdf".data).2.1 =
      ["http://h/api/svc".data, "http://h/api/svc/api/svc".data,
        "http://h/api/svc/api/svc/api/svc".data] ∧
    ("http://h/api/svc".data : List Char) ≠
      "http://h/api/svc/api/svc".data := by
  decide

/-- C3 (amended): a 503 response is retried after sleeping `sleep_time`
until a non-503 status arrives, re-submitting the same file and the same
form options; with a script of 503, 503, 200 there are exactly three
submissions and one written output — but the submissions are not
identical: the target URL of attempt `k+1` is the URL of attempt `k`
with `/api/{service}` appended once more. -/
theorem c3_retry_resubmits_extended_url (st : ClientSt)
    (fs : List (List Char)) (p : List Char) (b1 b2 b3 : List Char)
    (hskip : ¬ (st.force = false ∧ destPath st.output_directory p ∈ fs)) :
    process_pdf st fs [⟨503, b1⟩, ⟨503, b2⟩, ⟨200, b3⟩] p =
      ({ st with api_url :=
          st.api_url ++ "/api/".data ++ st.service ++ "/api/".data ++
            st.service ++ "/api/".data ++ st.service },
        [Ev.net (st.api_url ++ "/api/".data ++ st.service) p
            (prepare_post_data st),
          Ev.sleep st.sleep_time,
          Ev.net (st.api_url ++ "/api/".data ++ st.service ++
            "/api/".data ++ st.service) p (prepare_post_data st),
          Ev.sleep st.sleep_time,
          Ev.net (st.api_url ++ "/api/".data ++ st.service ++
            "/api/".data ++ st.service ++ "/api/".data ++ st.service) p
            (prepare_post_data st),
          Ev.write (destPath st.output_directory p) b3],
        some Outcome.success) := by
  simp [process_pdf, hskip, prepare_post_data]

/-- Witness for `c3_retry_resubmits_extended_url` at a concrete client
and response script. -/
theorem c3_retry_resubmits_extended_url_witness :
    process_pdf sampleStF [] [⟨503, []⟩, ⟨503, []⟩, ⟨200, "B".data⟩]
        "in/a.pdf".data =
      ({ sampleStF with api_url :=
          sampleStF.api_url ++ "/api/".data ++ sampleStF.service ++
            "/api/".data ++ sampleStF.service ++ "/api/".data ++
            sampleStF.service },
        [Ev.net (sampleStF.api_url ++ "/api/".data ++ sampleStF.service)
            "in/a.pdf".data (prepare_post_data sampleStF),
          Ev.sleep sampleStF.sleep_time,
          Ev.net (sampleStF.api_url ++ "/api/".data ++ sampleStF.service ++
            "/api/".data ++ sampleStF.service) "in/a.pdf".data
            (prepare_post_data sampleStF),
          Ev.sleep sampleStF.sleep_time,
          Ev.net (sampleStF.api_url ++ "/api/".data ++ sampleStF.service ++
            "/api/".data ++ sampleStF.service ++ "/api/".data ++
            sampleStF.service) "in/a.pdf".data
            (prepare_post_data sampleStF),
          Ev.write (destPath sampleStF.output_directory "in/a.pdf".data)
            "B".data],
        some Outcome.success) :=
  c3_retry_resubmits_extended_url sampleStF [] "in/a.pdf".data [] []
    "B".data (by decide)

/-- `listEndsWith` agrees with the list-suffix relation. -/
theorem listEndsWith_iff (l e : List Char) :
    listEndsWith l e = true ↔ e <:+ l := by
  unfold listEndsWith
  rw [decide_eq_true_eq]
  constructor
  · intro h
    refine List.reverse_prefix.mp ?_
    rw [List.prefix_iff_eq_take, List.length_reverse]
    exact h.symm
  · intro h
    have h2 := List.reverse_prefix.mpr h
    rw [List.prefix_iff_eq_take, List.length_reverse] at h2
    exact h2.symm

/-- C8 (counterexample): the name `x.Pdf` matches `.pdf`
case-insensitively — as the spec's filter demands — yet a walk of a
directory holding exactly that file discovers nothing: the source filter
accepts only the exact endings `.pdf` and `.PDF`. -/
theorem c8_mixed_case_counterexample :
    specMatchesPdfCI "x.Pdf".data = true ∧
    matchedFiles [("d".data, ["x.Pdf".data])] "d".data = [] := by
  decide

/-- C8 (amended): a file is discovered and submitted iff its name ends
with `.pdf` or `.PDF` exactly (so `.Pdf`, `.pDF` and other mixed casings
are excluded), joined to its directory with `/`. -/
theorem c8_exact_case_filter (fs : FS) (root f : List Char) :
    f ∈ matchedFiles fs root ↔
      ∃ e, e ∈ osWalk fs root ∧ ∃ n, n ∈ e.2 ∧
        ((".pdf".data <:+ n) ∨ (".PDF".data <:+ n)) ∧
        f = e.1 ++ '/' :: n := by
  simp only [matchedFiles, List.mem_flatMap, List.mem_map,
    List.mem_filter, matchesPdf, Bool.or_eq_true, listEndsWith_iff]
  constructor
  · rintro ⟨e, he, n, ⟨hn, hsuf⟩, rfl⟩
    exact ⟨e, he, n, hn, hsuf, rfl⟩
  · rintro ⟨e, he, n, hn, hsuf, rfl⟩
    exact ⟨e, he, n, ⟨hn, hsuf⟩, rfl⟩

/-- A slash-free list is its own part after the last slash. -/
theorem afterLastSlash_of_not_mem {x : List Char} (hx : '/' ∉ x) :
    afterLastSlash x = x := by
  unfold afterLastSlash
  rw [List.takeWhile_eq_self_iff.mpr, List.reverse_reverse]
  intro c hc
  rw [List.mem_reverse] at hc
  exact decide_eq_true (fun he => hx (he ▸ hc))

/-- Appending `'/' :: x` with `x` slash-free puts exactly `x` after the
last slash. -/
theorem afterLastSlash_append_cons {a x : List Char} (hx : '/' ∉ x) :
    afterLastSlash (a ++ '/' :: x) = x := by
  unfold afterLastSlash
  rw [List.reverse_append, List.reverse_cons, List.append_assoc,
    List.singleton_append]
  rw [List.takeWhile_append_of_pos, List.takeWhile_cons_of_neg]
  · simp
  · simp
  · intro c hc
    rw [List.mem_reverse] at hc
    exact decide_eq_true (fun he => hx (he ▸ hc))

/-- `os.path.join a x` with `x` slash-free puts exactly `x` after the
last slash of the joined path. -/
theorem afterLastSlash_pyJoin {a x : List Char} (hx : '/' ∉ x) :
    afterLastSlash (pyJoin a x) = x := by
  unfold pyJoin
  split_ifs with h1 h2
  · exfalso
    cases x with
    | nil => simp at h1
    | cons c t =>
      simp only [List.head?_cons, Option.some.injEq] at h1
      exact hx (h1 ▸ List.mem_cons_self c t)
  · rcases h2 with h2 | h2
    · subst h2
      rw [List.nil_append]
      exact afterLastSlash_of_not_mem hx
    · have ha := List.dropLast_append_getLast? '/' h2
      rw [← ha, List.append_assoc, List.singleton_append]
      exact afterLastSlash_append_cons hx
  · exact afterLastSlash_append_cons hx

/-- `ntpath.basename` output contains no slash. -/
theorem slash_not_mem_ntBasename (p : List Char) : '/' ∉ ntBasename p := by
  intro h
  unfold ntBasename at h
  rw [List.mem_reverse] at h
  have := List.mem_takeWhile_imp h
  simp [isNtSep] at this

/-- The stem returned by `splitext` is made of characters of its
argument. -/
theorem splitextStem_subset (q : List Char) : splitextStem q ⊆ q := by
  unfold splitextStem
  cases lastIndexOf '.' q with
  | none => exact fun a ha => ha
  | some d =>
    cases lastIndexOf '/' q with
    | none =>
      dsimp only
      split_ifs
      · exact fun a ha => ha
      · exact List.take_subset d q
      · exact fun a ha => ha
    | some k =>
      dsimp only
      split_ifs
      · exact fun a ha => ha
      · exact List.take_subset d q
      · exact fun a ha => ha

/-- The file part `stem ++ '.tei.xml'` of a destination is slash-free. -/
theorem slash_not_mem_stem_ext (q : List Char) :
    '/' ∉ splitextStem (ntBasename q) ++ teiExt := by
  intro hm
  rcases List.mem_append.mp hm with hm | hm
  · exact slash_not_mem_ntBasename q (splitextStem_subset (ntBasename q) hm)
  · revert hm
    decide

/-- The part of a destination path after its last slash is the input's
stem followed by `.tei.xml`, for either destination rule. -/
theorem afterLastSlash_destPath (od : Option (List Char)) (q : List Char) :
    afterLastSlash (destPath od q) =
      splitextStem (ntBasename q) ++ teiExt := by
  cases od with
  | none => exact afterLastSlash_pyJoin (slash_not_mem_stem_ext q)
  | some d => exact afterLastSlash_pyJoin (slash_not_mem_stem_ext q)

/-- C6 (counterexample): two distinct input files with equal base names,
processed with an output directory configured, are given the same
destination path — the naming scheme does not guarantee uniqueness. -/
theorem c6_dest_collision_counterexample :
    ("a/x.pdf".data : List Char) ≠ "b/x.pdf".data ∧
    destPath (some "out".data) "a/x.pdf".data =
      destPath (some "out".data) "b/x.pdf".data := by
  decide

/-- C6 (amended): destination paths are distinct whenever the inputs'
stems (base name with the extension removed) are distinct — with or
without an output directory; inputs sharing a stem (for example
`a/x.pdf` and `b/x.pdf` under an output directory) collide. -/
theorem c6_dest_distinct_of_stem_distinct (od : Option (List Char))
    (p1 p2 : List Char)
    (h : splitextStem (ntBasename p1) ≠ splitextStem (ntBasename p2)) :
    destPath od p1 ≠ destPath od p2 := by
  intro heq
  apply h
  have h1 := afterLastSlash_destPath od p1
  have h2 := afterLastSlash_destPath od p2
  rw [heq, h2] at h1
  exact (List.append_cancel_right h1).symm

/-- Witness for `c6_dest_distinct_of_stem_distinct`: two inputs with
distinct stems get distinct destinations. -/
theorem c6_dest_distinct_of_stem_distinct_witness :
    destPath none "in/a.pdf".data ≠ destPath none "in/b.pdf".data :=
  c6_dest_distinct_of_stem_distinct none "in/a.pdf".data "in/b.pdf".data
    (by decide)

/-- The per-directory iteration of `process` equals a `stepFile` fold
over the directory's matched, joined file names. -/
theorem foldl_filter_stepFile (B : Nat) (d : List Char) :
    ∀ (names : List (List Char))
      (st : List (List (List Char)) × List (List Char)),
    names.foldl
      (fun st2 name =>
        if matchesPdf name then stepFile B st2 (d ++ '/' :: name)
        else st2) st =
    ((names.filter matchesPdf).map (fun n => d ++ '/' :: n)).foldl
      (stepFile B) st := by
  intro names
  induction names with
  | nil => intro st; rfl
  | cons n t ih =>
    intro st
    by_cases m : matchesPdf n
    · simp only [List.foldl_cons, if_pos m, List.filter_cons_of_pos m,
        List.map_cons]
      exact ih (stepFile B st (d ++ '/' :: n))
    · simp only [List.foldl_cons, if_neg m, List.filter_cons_of_neg m]
      exact ih st

/-- The nested walk-and-filter iteration of `process` equals a
`stepFile` fold over the flattened matched file list. -/
theorem foldl_walk_stepFile (B : Nat) :
    ∀ (entries : FS) (st : List (List (List Char)) × List (List Char)),
    entries.foldl
      (fun st e => e.2.foldl
        (fun st2 name =>
          if matchesPdf name then stepFile B st2 (e.1 ++ '/' :: name)
          else st2) st) st =
    (entries.flatMap
      (fun e => (e.2.filter matchesPdf).map (fun n => e.1 ++ '/' :: n))).foldl
      (stepFile B) st := by
  intro entries
  induction entries with
  | nil => intro st; rfl
  | cons e t ih =>
    intro st
    simp only [List.foldl_cons, List.flatMap_cons, List.foldl_append]
    rw [foldl_filter_stepFile B e.1 e.2 st]
    exact ih _

/-- Finalizing a `stepFile` fold — draining a non-empty buffer as a last
batch — yields the batches of `processLoop`, after those already
drained. -/
theorem foldl_stepFile_processLoop (B : Nat) :
    ∀ (l : List (List Char)) (bs : List (List (List Char)))
      (acc : List (List Char)),
    (if 0 < (l.foldl (stepFile B) (bs, acc)).2.length
      then (l.foldl (stepFile B) (bs, acc)).1 ++
        [(l.foldl (stepFile B) (bs, acc)).2]
      else (l.foldl (stepFile B) (bs, acc)).1) =
    bs ++ processLoop B l acc := by
  intro l
  induction l with
  | nil =>
    intro bs acc
    simp only [List.foldl_nil, processLoop]
    by_cases h : 0 < acc.length
    · rw [if_pos h, if_pos h]
    · rw [if_neg h, if_neg h, List.append_nil]
  | cons f rest ih =>
    intro bs acc
    simp only [List.foldl_cons, processLoop, stepFile]
    by_cases hb : (acc ++ [f]).length = B
    · rw [if_pos hb, if_pos hb, ih (bs ++ [acc ++ [f]]) []]
      rw [List.append_assoc, List.singleton_append]
    · rw [if_neg hb, if_neg hb, ih bs (acc ++ [f])]

/-- With a buffer shorter than the batch size, `processLoop` chunks the
buffer followed by the remaining input. -/
theorem processLoop_eq_chunksOf (B : Nat) (hB : 0 < B) :
    ∀ (l : List (List Char)) (acc : List (List Char)),
    acc.length < B → processLoop B l acc = chunksOf B (acc ++ l) := by
  intro l
  induction l with
  | nil =>
    intro acc hacc
    rw [List.append_nil]
    by_cases h : 0 < acc.length
    · have hne : acc ≠ [] := List.length_pos.mp h
      rw [processLoop, if_pos h, chunksOf,
        dif_neg (by simp [hne, Nat.pos_iff_ne_zero.mp hB])]
      rw [List.take_of_length_le (Nat.le_of_lt hacc),
        List.drop_eq_nil_of_le (Nat.le_of_lt hacc), chunksOf]
      simp
    · have hnil : acc = [] := by
        cases acc with
        | nil => rfl
        | cons a t => exact absurd (by simp) h
      subst hnil
      rw [processLoop, if_neg h, chunksOf]
      simp
  | cons f rest ih =>
    intro acc hacc
    rw [List.append_cons, processLoop]
    by_cases hb : (acc ++ [f]).length = B
    · rw [if_pos hb, chunksOf, dif_neg (by
        simp [Nat.pos_iff_ne_zero.mp hB])]
      rw [List.take_left' hb, List.drop_left' hb]
      rw [ih [] (by simpa using hB)]
      rw [List.nil_append]
    · have hlt : (acc ++ [f]).length < B := by
        have : (acc ++ [f]).length = acc.length + 1 := by simp
        omega
      rw [if_neg hb, ih (acc ++ [f]) hlt]

/-- The number of chunks is the ceiling of the length divided by the
chunk size. -/
theorem chunksOf_length (B : Nat) (hB : 0 < B) :
    ∀ l, (chunksOf B l).length = (l.length + B - 1) / B := by
  intro l
  induction l using chunksOf.induct B with
  | case1 h =>
    rw [chunksOf, dif_pos (Or.inr rfl), if_pos rfl]
    simp only [List.length_nil]
    exact (Nat.div_eq_of_lt (by omega)).symm
  | case2 l h hne =>
    rcases h with h0 | h0
    · exact absurd hB (by omega)
    · exact absurd h0 hne
  | case3 l h ih =>
    have hne : l ≠ [] := fun hl => h (Or.inr hl)
    have hpos : 0 < l.length := List.length_pos.mpr hne
    rw [chunksOf, dif_neg h]
    simp only [List.length_cons, ih, List.length_drop]
    rcases le_or_lt l.length B with hle | hlt
    · have e1 : l.length - B + B - 1 = B - 1 := by omega
      have e2 : l.length + B - 1 = (l.length - 1) + B := by omega
      rw [e1, e2, Nat.add_div_right _ hB, Nat.div_eq_of_lt (by omega),
        Nat.div_eq_of_lt (by omega)]
    · have e1 : l.length - B + B - 1 = l.length - 1 := by omega
      have e2 : l.length + B - 1 = (l.length - 1) + B := by omega
      rw [e1, e2, Nat.add_div_right _ hB]

/-- Chunk `i` holds the elements at positions `i·B` through
`min((i+1)·B, length) - 1` of the list. -/
theorem chunksOf_getElem? (B : Nat) (hB : 0 < B) :
    ∀ l i, i < (chunksOf B l).length →
      (chunksOf B l)[i]? = some ((l.drop (i * B)).take B) := by
  intro l
  induction l using chunksOf.induct B with
  | case1 h =>
    intro i hi
    rw [chunksOf, dif_pos (Or.inr rfl), if_pos rfl] at hi
    exact absurd hi (by simp)
  | case2 l h hne =>
    rcases h with h0 | h0
    · exact fun i hi => absurd hB (by omega)
    · exact absurd h0 hne
  | case3 l h ih =>
    intro i hi
    rw [chunksOf, dif_neg h] at hi ⊢
    cases i with
    | zero =>
      simp
    | succ j =>
      simp only [List.getElem?_cons_succ]
      rw [List.length_cons] at hi
      rw [ih j (by omega)]
      rw [List.drop_drop]
      congr 2
      ring_nf

/-- The batches `process` schedules are exactly the `B`-chunks of the
matched-file traversal. -/
theorem processRunBatches_eq_chunksOf (fs : FS) (root : List Char)
    (B : Nat) (hB : 0 < B) :
    processRunBatches fs root B = chunksOf B (matchedFiles fs root) := by
  unfold processRunBatches matchedFiles
  rw [foldl_walk_stepFile]
  rw [foldl_stepFile_processLoop]
  rw [List.nil_append]
  rw [processLoop_eq_chunksOf B hB _ [] (by simpa using hB)]
  rw [List.nil_append]

/-- C1: over any walked tree, with batch size `B > 0` and `M` matched
paths, `process` schedules exactly `⌈M/B⌉` batches, and batch `i`
(0-indexed) holds exactly the matched paths at positions
`[i·B, min((i+1)·B, M))` of the traversal order. -/
theorem c1_batch_partition (fs : FS) (root : List Char) (B : Nat)
    (hB : 0 < B) :
    (processRunBatches fs root B).length =
      ((matchedFiles fs root).length + B - 1) / B ∧
    ∀ i, i < (processRunBatches fs root B).length →
      (processRunBatches fs root B)[i]? =
        some (((matchedFiles fs root).drop (i * B)).take B) := by
  rw [processRunBatches_eq_chunksOf fs root B hB]
  exact ⟨chunksOf_length B hB _, fun i hi => chunksOf_getElem? B hB _ i hi⟩

/-- Witness for `c1_batch_partition`: three matched files, batch size 2,
giving two batches. -/
theorem c1_batch_partition_witness :
    (processRunBatches sampleFS "in".data 2).length =
      ((matchedFiles sampleFS "in".data).length + 2 - 1) / 2 ∧
    ∀ i, i < (processRunBatches sampleFS "in".data 2).length →
      (processRunBatches sampleFS "in".data 2)[i]? =
        some (((matchedFiles sampleFS "in".data).drop (i * 2)).take 2) :=
  c1_batch_partition sampleFS "in".data 2 (by decide)

/-- C2: in every trace of a run, the whole activity of batch `N+1` lies
after a point by which every file of batch `N` has reached its terminal
state: the trace splits as `t1 ++ tb ++ rest` where `t1` contains the
completion of every file of batch `N`, and `tb` is batch `N+1`'s entire
trace — in particular no file of batch `N+1` is submitted before every
file of batch `N` is terminal, and `process_batch` returns only once all
its units are terminal (its trace segment contains all completions). -/
theorem c2_batch_barrier (batches : List (List (List Char)))
    (t : List BEv) (N : Nat) (bN bN1 : List (List Char))
    (ht : isProcessTrace batches t)
    (hN : batches[N]? = some bN)
    (hN1 : batches[N + 1]? = some bN1) :
    ∃ t1 tb rest, t = t1 ++ tb ++ rest ∧
      (∀ f ∈ bN, BEv.finished f ∈ t1) ∧
      isBatchTrace bN1 tb := by
  obtain ⟨ts, rfl, hall⟩ := ht
  have hlen : batches.length = ts.length := hall.length_eq
  obtain ⟨hN1lt, hN1eq⟩ := List.getElem?_eq_some_iff.mp hN1
  obtain ⟨hNlt, hNeq⟩ := List.getElem?_eq_some_iff.mp hN
  have hN1lt' : N + 1 < ts.length := by omega
  have hNlt' : N < ts.length := by omega
  have hsplit : ts = ts.take (N + 1) ++ ts[N + 1] :: ts.drop (N + 2) := by
    conv_lhs => rw [← List.take_append_drop (N + 1) ts]
    rw [List.drop_eq_getElem_cons hN1lt']
  refine ⟨(ts.take (N + 1)).flatten, ts[N + 1],
    (ts.drop (N + 2)).flatten, ?_, ?_, ?_⟩
  · conv_lhs => rw [hsplit]
    rw [List.flatten_append, List.flatten_cons, ← List.append_assoc]
  · intro f hf
    have h1 := hall.get hNlt hNlt'
    simp only [List.get_eq_getElem] at h1
    rw [hNeq] at h1
    have hfin : BEv.finished f ∈ ts[N] := (h1.2.1 f).mpr hf
    refine List.mem_flatten.mpr ⟨ts[N], ?_, hfin⟩
    refine List.getElem?_mem (n := N) ?_
    rw [List.getElem?_take_of_lt (by omega)]
    exact List.getElem?_eq_getElem hNlt'
  · have h1 := hall.get hN1lt hN1lt'
    simp only [List.get_eq_getElem] at h1
    rw [hN1eq] at h1
    exact h1

/-- Witness for `c2_batch_barrier`: two one-file batches and the
sequential trace submit–finish–submit–finish. -/
theorem c2_batch_barrier_witness :
    ∃ t1 tb rest,
      ([BEv.submitted "a".data, BEv.finished "a".data,
        BEv.submitted "b".data, BEv.finished "b".data] : List BEv) =
        t1 ++ tb ++ rest ∧
      (∀ f ∈ (["a".data] : List (List Char)), BEv.finished f ∈ t1) ∧
      isBatchTrace ["b".data] tb :=
  c2_batch_barrier [["a".data], ["b".data]]
    [BEv.submitted "a".data, BEv.finished "a".data,
      BEv.submitted "b".data, BEv.finished "b".data] 0
    ["a".data] ["b".data]
    ⟨[[BEv.submitted "a".data, BEv.finished "a".data],
      [BEv.submitted "b".data, BEv.finished "b".data]], rfl,
      List.Forall₂.cons
        ⟨by intro x; simp, by intro x; simp,
          by
            intro x hx
            simp only [List.mem_singleton] at hx
            subst hx
            exact ⟨[BEv.submitted "a".data], [BEv.finished "a".data],
              rfl, by simp, by simp⟩⟩
        (List.Forall₂.cons
          ⟨by intro x; simp, by intro x; simp,
            by
              intro x hx
              simp only [List.mem_singleton] at hx
              subst hx
              exact ⟨[BEv.submitted "b".data], [BEv.finished "b".data],
                rfl, by simp, by simp⟩⟩
          List.Forall₂.nil)⟩
    rfl rfl

end Grobid
